import Mathlib

/-!
Verification development for the macfuse library core
(`lib/fuse_session.c`, `lib/fuse_loop_dispatch.c`, `lib/fuse_mt.c`,
`lib/fuse_signals.c`, `lib/helper.c`).

The C sources are shallowly embedded: pure computations become Lean
functions, stateful code becomes explicit state passing, and the effects
that matter to the properties (which platform primitive got invoked with
which arguments, which reference counts moved, whether a structure was
freed) are recorded in explicit result records.  Pointers are modelled as
natural numbers and heaps as functions from pointers to optional values.
-/

namespace MacFuse

/-! ### Channel reference counting (`fuse_chan_new_common`, `fuse_chan_retain`,
`fuse_chan_release` in src/lib/fuse_session.c)

A channel is created with `retain_count = 1`.  `fuse_chan_retain`
increments the count under the channel lock; `fuse_chan_release`
decrements it and frees the channel exactly when the decremented count is
zero.  The state of one channel is `some n` (alive with `retain_count = n`)
or `none` (freed).  Calls on a freed channel are undefined behaviour in C;
the model makes `none` absorbing, and the main theorem assumes the call
sequence never touches a freed channel (`chanValid`). -/

inductive ChanOp where
  | retain
  | release
deriving DecidableEq, Repr

/-- Number of `fuse_chan_retain` calls in a sequence. -/
def countRetain (ops : List ChanOp) : Nat :=
  ops.count ChanOp.retain

/-- Number of `fuse_chan_release` calls in a sequence. -/
def countRelease (ops : List ChanOp) : Nat :=
  ops.count ChanOp.release

/-- One `fuse_chan_retain`/`fuse_chan_release` call on a channel state.
`fuse_chan_release` frees the channel exactly when `--ch->retain_count`
reaches zero. -/
def fuse_chan_step : Option Int → ChanOp → Option Int
  | some n, .retain => some (n + 1)
  | some n, .release => if n - 1 = 0 then none else some (n - 1)
  | none, _ => none

/-- Run a sequence of retain/release calls on a channel fresh from
`fuse_chan_new_common`, whose `retain_count` is 1. -/
def fuse_chan_run (ops : List ChanOp) : Option Int :=
  ops.foldl fuse_chan_step (some 1)

/-- Number of times the sequence frees the channel (transitions the state
from alive to freed). -/
def destroyCount : Option Int → List ChanOp → Nat
  | _, [] => 0
  | s, op :: rest =>
    (if s ≠ none ∧ fuse_chan_step s op = none then 1 else 0) +
      destroyCount (fuse_chan_step s op) rest

/-- The sequence never calls retain/release on an already freed channel:
after every strict prefix the number of releases has not yet caught up
with the implicit-plus-explicit retains. -/
def chanValid (ops : List ChanOp) : Prop :=
  ∀ k, k < ops.length → countRelease (ops.take k) ≤ countRetain (ops.take k)

theorem fuse_chan_step_none (op : ChanOp) : fuse_chan_step none op = none := rfl

theorem foldl_fuse_chan_step_none (l : List ChanOp) :
    l.foldl fuse_chan_step none = none := by
  induction l with
  | nil => rfl
  | cons op rest ih => simpa [fuse_chan_step_none] using ih

theorem destroyCount_none (l : List ChanOp) : destroyCount none l = 0 := by
  induction l with
  | nil => rfl
  | cons op rest ih => simpa [destroyCount, fuse_chan_step_none] using ih

theorem destroyCount_le_one (s : Option Int) (l : List ChanOp) :
    destroyCount s l ≤ 1 := by
  induction l generalizing s with
  | nil => simp [destroyCount]
  | cons op rest ih =>
    by_cases h : fuse_chan_step s op = none
    · calc destroyCount s (op :: rest)
          = (if s ≠ none ∧ fuse_chan_step s op = none then 1 else 0) +
              destroyCount (fuse_chan_step s op) rest := rfl
        _ ≤ 1 + 0 := by
            rw [h, destroyCount_none]
            split <;> omega
        _ ≤ 1 := by omega
    · calc destroyCount s (op :: rest)
          = (if s ≠ none ∧ fuse_chan_step s op = none then 1 else 0) +
              destroyCount (fuse_chan_step s op) rest := rfl
        _ ≤ 0 + 1 := by
            have h2 := ih (fuse_chan_step s op)
            have h3 : (if s ≠ none ∧ fuse_chan_step s op = none then 1 else 0) = 0 := by
              simp [h]
            omega
        _ ≤ 1 := by omega

theorem countRetain_cons_retain (l : List ChanOp) :
    countRetain (ChanOp.retain :: l) = countRetain l + 1 := by
  simp [countRetain]

theorem countRetain_cons_release (l : List ChanOp) :
    countRetain (ChanOp.release :: l) = countRetain l := by
  simp [countRetain, List.count_cons]

theorem countRelease_cons_retain (l : List ChanOp) :
    countRelease (ChanOp.retain :: l) = countRelease l := by
  simp [countRelease, List.count_cons]

theorem countRelease_cons_release (l : List ChanOp) :
    countRelease (ChanOp.release :: l) = countRelease l + 1 := by
  simp [countRelease]

/-- Characterisation of the channel state after a valid call sequence
starting from an arbitrary positive count. -/
theorem foldl_fuse_chan_step_eq (ops : List ChanOp) :
    ∀ n : Int, 0 < n →
    (∀ k, k < ops.length →
      (countRelease (ops.take k) : Int) < n + countRetain (ops.take k)) →
    ops.foldl fuse_chan_step (some n) =
      (if (countRelease ops : Int) = n + countRetain ops then none
       else some (n + countRetain ops - countRelease ops)) := by
  induction ops with
  | nil =>
    intro n hn _
    simp [countRelease, countRetain]
    omega
  | cons op rest ih =>
    intro n hn hpre
    cases op with
    | retain =>
      have step : fuse_chan_step (some n) ChanOp.retain = some (n + 1) := rfl
      have hrec := ih (n + 1) (by omega) (by
        intro k hk
        have := hpre (k + 1) (by simpa using Nat.succ_lt_succ hk)
        rw [List.take_succ_cons, countRelease_cons_retain,
          countRetain_cons_retain] at this
        push_cast at this ⊢
        omega)
      rw [List.foldl_cons, step, hrec, countRelease_cons_retain,
        countRetain_cons_retain]
      by_cases hc : (countRelease rest : Int) = n + 1 + countRetain rest
      · rw [if_pos hc, if_pos (by omega)]
      · rw [if_neg hc, if_neg (by omega)]
        congr 1
        omega
    | release =>
      by_cases h1 : n = 1
      · subst h1
        have step : fuse_chan_step (some 1) ChanOp.release = none := by
          simp [fuse_chan_step]
        have hrest : rest = [] := by
          by_contra hne
          have hlen : 0 < rest.length := List.length_pos.mpr hne
          have := hpre 1 (by simpa using Nat.succ_lt_succ hlen)
          rw [List.take_succ_cons, List.take_zero] at this
          simp [countRelease_cons_release, countRelease, countRetain] at this
        subst hrest
        simp [step, countRelease, countRetain]
      · have hn1 : 1 < n := by omega
        have step : fuse_chan_step (some n) ChanOp.release = some (n - 1) := by
          simp [fuse_chan_step]
          omega
        have hrec := ih (n - 1) (by omega) (by
          intro k hk
          have := hpre (k + 1) (by simpa using Nat.succ_lt_succ hk)
          rw [List.take_succ_cons, countRelease_cons_release,
            countRetain_cons_release] at this
          push_cast at this ⊢
          omega)
        rw [List.foldl_cons, step, hrec, countRelease_cons_release,
          countRetain_cons_release]
        by_cases hc : (countRelease rest : Int) = n - 1 + countRetain rest
        · rw [if_pos hc, if_pos (by omega)]
        · rw [if_neg hc, if_neg (by omega)]
          congr 1
          omega

theorem chanValid_release_bound (ops : List ChanOp) (h : chanValid ops) :
    countRelease ops ≤ countRetain ops + 1 := by
  cases ops with
  | nil => simp [countRelease, countRetain]
  | cons op rest =>
    have hlast := h rest.length (by simp)
    have htake : (op :: rest).take rest.length <+: op :: rest :=
      List.take_prefix _ _
    have hd : ∃ l, (op :: rest).take rest.length ++ l = op :: rest ∧
        l.length = 1 := by
      obtain ⟨l, hl⟩ := htake
      refine ⟨l, hl, ?_⟩
      have := congrArg List.length hl
      simp [List.length_take] at this
      omega
    obtain ⟨l, hl, hlen⟩ := hd
    have hrel : countRelease (op :: rest) =
        countRelease ((op :: rest).take rest.length) + countRelease l := by
      rw [← hl]
      simp [countRelease]
    have hret : countRetain ((op :: rest).take rest.length) ≤
        countRetain (op :: rest) := by
      conv_rhs => rw [← hl]
      simp [countRetain]
    have hrell : countRelease l ≤ 1 := by
      have : countRelease l ≤ l.length := List.count_le_length _ _
      omega
    omega

/-- Claim C1: starting from the implicit initial reference of one, a valid
sequence of `fuse_chan_retain`/`fuse_chan_release` calls frees the channel
if and only if the number of releases equals the number of retains plus the
implicit initial one, and the channel is freed at most once over the whole
sequence. -/
theorem chan_refcount_destroy_iff (ops : List ChanOp) (h : chanValid ops) :
    (fuse_chan_run ops = none ↔ countRelease ops = countRetain ops + 1) ∧
    destroyCount (some 1) ops ≤ 1 := by
  refine ⟨?_, destroyCount_le_one _ _⟩
  have hpre : ∀ k, k < ops.length →
      (countRelease (ops.take k) : Int) < 1 + countRetain (ops.take k) := by
    intro k hk
    have := h k hk
    omega
  rw [fuse_chan_run, foldl_fuse_chan_step_eq ops 1 (by omega) hpre]
  by_cases hc : (countRelease ops : Int) = 1 + countRetain ops
  · rw [if_pos hc]
    constructor
    · intro _
      omega
    · intro _
      rfl
  · rw [if_neg hc]
    constructor
    · intro habs
      exact absurd habs (by simp)
    · intro he
      exfalso
      apply hc
      omega

/-- Concrete run of Claim C1: a single release on a fresh channel is a
valid sequence, it frees the channel, and the release count (1) equals the
retain count (0) plus one. -/
theorem chan_refcount_destroy_iff_witness :
    chanValid [ChanOp.release] ∧
    ((fuse_chan_run [ChanOp.release] = none ↔
      countRelease [ChanOp.release] = countRetain [ChanOp.release] + 1) ∧
     destroyCount (some 1) [ChanOp.release] ≤ 1) := by
  refine ⟨?_, chan_refcount_destroy_iff [ChanOp.release] ?_⟩ <;>
    · intro k hk
      simp only [List.length_singleton, Nat.lt_one_iff] at hk
      subst hk
      simp [countRelease, countRetain]

/-! ### Receive-result normalization (`fuse_chan_receive` in
src/lib/fuse_session.c, line 307)

`fuse_chan_receive` wraps `fuse_chan_recv` and maps the raw result
through `res >= 0 ? res : (res != -EINTR && res != -EAGAIN) ? -1 : 0`.
Errno values are the Darwin ones. -/

def EINTR : Int := 4

def EAGAIN : Int := 35

/-- Normalization applied by `fuse_chan_receive` to the raw result of
`fuse_chan_recv`. -/
def fuse_chan_receive (res : Int) : Int :=
  if 0 ≤ res then res
  else if res ≠ -EINTR ∧ res ≠ -EAGAIN then -1
  else 0

/-- Claim C10: `fuse_chan_receive` returns a nonnegative raw result
unchanged, converts `-EINTR` and `-EAGAIN` to 0, converts every other
negative result to -1, and consequently never returns anything below -1. -/
theorem chan_receive_normalizes (r : Int) :
    (0 ≤ r → fuse_chan_receive r = r) ∧
    (r = -EINTR ∨ r = -EAGAIN → fuse_chan_receive r = 0) ∧
    (r < 0 → r ≠ -EINTR → r ≠ -EAGAIN → fuse_chan_receive r = -1) ∧
    -1 ≤ fuse_chan_receive r := by
  refine ⟨?_, ?_, ?_, ?_⟩
  · intro h
    simp [fuse_chan_receive, h]
  · intro h
    rcases h with h | h <;> subst h <;> simp [fuse_chan_receive, EINTR, EAGAIN]
  · intro h h1 h2
    simp [fuse_chan_receive, EINTR, EAGAIN] at h1 h2 ⊢
    omega
  · unfold fuse_chan_receive
    split
    · omega
    · split <;> omega

/-- Concrete runs of Claim C10 at raw results 7, -4 (`-EINTR`),
-35 (`-EAGAIN`) and -5. -/
theorem chan_receive_normalizes_witness :
    fuse_chan_receive 7 = 7 ∧ fuse_chan_receive (-4) = 0 ∧
    fuse_chan_receive (-35) = 0 ∧ fuse_chan_receive (-5) = -1 :=
  ⟨(chan_receive_normalizes 7).1 (by decide),
   (chan_receive_normalizes (-4)).2.1 (Or.inl (by decide)),
   (chan_receive_normalizes (-35)).2.1 (Or.inr (by decide)),
   (chan_receive_normalizes (-5)).2.2.1 (by decide) (by decide) (by decide)⟩

/-! ### Bounded concurrent dispatch loop (`fuse_session_loop_dispatch` in
src/lib/fuse_loop_dispatch.c)

One reader thread loops while the session has not exited: it receives
into the scratch buffer (`fuse_session_receive_buf`), retries immediately
on `-EINTR`, breaks on any other result ≤ 0, allocates a per-request
buffer (breaking with `res = -1` on allocation failure), and submits the
copied request to a concurrency-limited dispatch group.  After the loop
it waits for the whole group.

The loop is driven by a script: one `(res, allocOk)` pair per iteration,
where `res` is what `fuse_session_receive_buf` returns and `allocOk`
whether the per-request `malloc` succeeds.  The script ending models the
session becoming exited.  The result is the final value of `res` together
with the list of script indices whose requests were submitted to the
group, in submission order. -/

def fuse_session_loop_dispatch_aux :
    List (Int × Bool) → Nat → Int → Int × List Nat
  | [], _, res => (res, [])
  | (r, a) :: rest, i, _ =>
    if r = -EINTR then fuse_session_loop_dispatch_aux rest (i + 1) r
    else if r ≤ 0 then (r, [])
    else if a then
      let p := fuse_session_loop_dispatch_aux rest (i + 1) r
      (p.1, i :: p.2)
    else (-1, [])

/-- The whole of `fuse_session_loop_dispatch`: run the read loop, then
(after draining the group) map a negative `res` to -1 and anything else
to 0, as in `return res < 0 ? -1 : 0`. -/
def fuse_session_loop_dispatch (script : List (Int × Bool)) : Int × List Nat :=
  let p := fuse_session_loop_dispatch_aux script 0 0
  (if p.1 < 0 then -1 else 0, p.2)

/-- Claim C5: in each iteration of the bounded concurrent dispatch loop, a
receive result of `-EINTR` retries immediately (the loop simply continues
with the remaining script, submitting nothing for that iteration and not
treating it as an error); any other receive result ≤ 0 terminates the
loop; and a failed allocation of the per-request buffer terminates the
loop with error result -1 for that iteration. -/
theorem dispatch_iteration_error_handling (rest : List (Int × Bool)) (i : Nat)
    (res r : Int) (a : Bool) :
    (fuse_session_loop_dispatch_aux ((-EINTR, a) :: rest) i res =
      fuse_session_loop_dispatch_aux rest (i + 1) (-EINTR)) ∧
    (r ≤ 0 → r ≠ -EINTR →
      fuse_session_loop_dispatch_aux ((r, a) :: rest) i res = (r, [])) ∧
    (0 < r →
      fuse_session_loop_dispatch_aux ((r, false) :: rest) i res = (-1, [])) := by
  refine ⟨?_, ?_, ?_⟩
  · simp [fuse_session_loop_dispatch_aux]
  · intro h1 h2
    simp [fuse_session_loop_dispatch_aux, h1, h2]
  · intro h
    have h1 : r ≠ -EINTR := by
      simp [EINTR]
      omega
    have h2 : ¬r ≤ 0 := by omega
    simp [fuse_session_loop_dispatch_aux, h1, h2]

/-- Concrete runs of Claim C5: an `-EINTR` iteration retries into the rest
of the script, a zero read terminates the loop, and an allocation failure
terminates it with -1. -/
theorem dispatch_iteration_error_handling_witness :
    fuse_session_loop_dispatch_aux [(-EINTR, true), (0, true)] 0 5 =
      fuse_session_loop_dispatch_aux [(0, true)] 1 (-EINTR) ∧
    fuse_session_loop_dispatch_aux [(0, true)] 1 (-EINTR) = (0, []) ∧
    fuse_session_loop_dispatch_aux [(9, false)] 0 0 = (-1, []) :=
  ⟨(dispatch_iteration_error_handling [(0, true)] 0 5 0 true).1,
   (dispatch_iteration_error_handling [] 1 (-EINTR) 0 true).2.1
     (by decide) (by decide),
   (dispatch_iteration_error_handling [] 0 0 9 true).2.2 (by decide)⟩

theorem dispatch_submits_all (reqs : List Int) :
    ∀ i res, (∀ r ∈ reqs, 0 < r) →
    (fuse_session_loop_dispatch_aux (reqs.map fun r => (r, true)) i res).2 =
      List.range' i reqs.length := by
  induction reqs with
  | nil =>
    intro i res _
    simp [fuse_session_loop_dispatch_aux]
  | cons r rest ih =>
    intro i res hpos
    have hr : 0 < r := hpos r (List.mem_cons_self _ _)
    have h1 : r ≠ -EINTR := by
      simp [EINTR]
      omega
    have h2 : ¬r ≤ 0 := by omega
    have step : (fuse_session_loop_dispatch_aux
        ((r, true) :: rest.map fun x => (x, true)) i res).2 =
        i :: (fuse_session_loop_dispatch_aux (rest.map fun x => (x, true))
          (i + 1) r).2 := by
      simp [fuse_session_loop_dispatch_aux, h1, h2]
    rw [List.map_cons, step, List.length_cons, List.range'_succ,
      ih (i + 1) r (fun x hx => hpos x (List.mem_cons_of_mem _ hx))]

/-- Claim C9: if K well-formed requests (positive receive results, with
per-request allocation succeeding) are delivered and then the session
exits, the loop submits exactly one unit of work per request, and the
dispatch-group drain — whatever order (`exec`) the group runs the
submitted units in — performs exactly K processing invocations, each
delivered request processed exactly once and nothing else processed. -/
theorem dispatch_k_requests_processed_once (reqs : List Int) (exec : List Nat)
    (hpos : ∀ r ∈ reqs, 0 < r)
    (hperm : exec.Perm
      (fuse_session_loop_dispatch (reqs.map fun r => (r, true))).2) :
    exec.length = reqs.length ∧
    (∀ j, j < reqs.length → exec.count j = 1) ∧
    (∀ j, reqs.length ≤ j → exec.count j = 0) := by
  have hsub : (fuse_session_loop_dispatch (reqs.map fun r => (r, true))).2 =
      List.range' 0 reqs.length := by
    unfold fuse_session_loop_dispatch
    exact dispatch_submits_all reqs 0 0 hpos
  rw [hsub] at hperm
  refine ⟨?_, ?_, ?_⟩
  · rw [hperm.length_eq]
    simp
  · intro j hj
    rw [hperm.count_eq]
    have hmem : j ∈ List.range' 0 reqs.length := by
      simp [List.mem_range']
      omega
    exact List.count_eq_one_of_mem (List.nodup_range' _ _) hmem
  · intro j hj
    rw [hperm.count_eq]
    rw [List.count_eq_zero]
    simp [List.mem_range']
    omega

/-- Concrete run of Claim C9: two requests of sizes 10 and 20 followed by
exit; the group executing the two submitted units in reverse order still
processes each request exactly once. -/
theorem dispatch_k_requests_processed_once_witness :
    (∀ r ∈ [(10 : Int), 20], 0 < r) ∧
    ([1, 0] : List Nat).Perm
      (fuse_session_loop_dispatch ([(10 : Int), 20].map fun r => (r, true))).2 ∧
    ([1, 0] : List Nat).length = [(10 : Int), 20].length ∧
    (∀ j, j < [(10 : Int), 20].length → ([1, 0] : List Nat).count j = 1) ∧
    (∀ j, [(10 : Int), 20].length ≤ j → ([1, 0] : List Nat).count j = 0) := by
  refine ⟨by decide, by decide, ?_⟩
  exact dispatch_k_requests_processed_once [10, 20] [1, 0] (by decide) (by decide)

/-! ### Request processing (`fuse_session_process`,
`fuse_session_process_buf` in src/lib/fuse_session.c, lines 98-113)

Sessions live in a heap indexed by pointer values.  A call to a process
operation is recorded as an outcome naming the op table that runs and the
arguments it receives.  `fuse_session_process(se, buf, len, ch)` runs
`se->op.process(se->data, buf, len, ch)`.  The degraded path of
`fuse_session_process_buf` is embedded exactly as the source writes it:
`fuse_session_process(se->data, buf->mem, buf->size, ch)`, whose first
argument is the session's opaque `data` pointer implicitly converted to a
`struct fuse_session *`.  Dereferencing a pointer that holds no session is
undefined behaviour, recorded as `invalidDeref`. -/

structure FuseBuf where
  mem : Nat
  size : Nat
  flagsFd : Bool
deriving DecidableEq, Repr

structure Session where
  data : Nat
  hasProcessBuf : Bool
deriving DecidableEq, Repr

inductive ProcessOutcome where
  | overrideCall (data : Nat) (buf : FuseBuf) (ch : Nat)
  | processCall (sess : Nat) (data : Nat) (mem : Nat) (size : Nat) (ch : Nat)
  | assertFailure
  | invalidDeref
deriving DecidableEq, Repr

/-- `fuse_session_process`: invoke the raw-bytes process operation of the
session found at pointer `sePtr`, passing that session's `data`, the byte
pointer, the length and the channel. -/
def fuse_session_process (heap : Nat → Option Session) (sePtr : Nat)
    (mem size ch : Nat) : ProcessOutcome :=
  match heap sePtr with
  | some s => .processCall sePtr s.data mem size ch
  | none => .invalidDeref

/-- `fuse_session_process_buf`: prefer the session's `process_buf`
override; otherwise assert the buffer is not an out-of-band descriptor and
degrade to `fuse_session_process(se->data, buf->mem, buf->size, ch)` —
with `se->data` in the session-pointer position, exactly as in the
source. -/
def fuse_session_process_buf (heap : Nat → Option Session) (sePtr : Nat)
    (buf : FuseBuf) (ch : Nat) : ProcessOutcome :=
  match heap sePtr with
  | none => .invalidDeref
  | some s =>
    if s.hasProcessBuf then .overrideCall s.data buf ch
    else if buf.flagsFd then .assertFailure
    else fuse_session_process heap s.data buf.mem buf.size ch

/-- A heap holding exactly one session, at pointer 1, whose opaque user
data pointer is 5 and which carries no `process_buf` override. -/
def heap1 : Nat → Option Session :=
  fun p => if p = 1 then some ⟨5, false⟩ else none

/-- An in-memory buffer (no out-of-band descriptor flag). -/
def memBuf : FuseBuf := ⟨100, 20, false⟩

/-- Claim C2, checked against the code: on a session with no `process_buf`
override and an in-memory buffer, the degraded path does not invoke that
session's own raw-bytes process operation on the buffer's memory, size and
channel; it passes the session's opaque `data` pointer where a session
pointer is expected, here dereferencing a pointer that holds no session.
The out-of-band-descriptor half of the claim does hold: an FD-flagged
buffer is an assertion failure on this path. -/
theorem process_buf_degraded_misroutes :
    fuse_session_process_buf heap1 1 memBuf 7 = ProcessOutcome.invalidDeref ∧
    fuse_session_process_buf heap1 1 memBuf 7 ≠
      ProcessOutcome.processCall 1 5 100 20 7 ∧
    fuse_session_process_buf heap1 1 ⟨100, 20, true⟩ 7 =
      ProcessOutcome.assertFailure := by
  refine ⟨rfl, ?_, rfl⟩
  decide

/-! ### Process-wide signal registration (`fuse_set_signal_handlers`,
`fuse_instance` in src/lib/fuse_signals.c)

On the Darwin path, for each of SIGHUP/SIGINT/SIGTERM the function sets
the synchronous handler to ignore, then refuses (reporting to stderr and
returning -1) if a dispatch signal source is already registered in the
process-wide `fuse_unmount_sources` slot, and otherwise creates the
source.  Only after all three sources and the SIGPIPE ignore succeed is
the process-wide `fuse_instance` set to the caller's session.  The
`sigaction` calls and `dispatch_source_create` are modelled as
succeeding.  The three array slots are unrolled into three fields. -/

structure SigState where
  registeredSession : Option Nat
  src0 : Bool
  src1 : Bool
  src2 : Bool
deriving DecidableEq, Repr

structure SigResult where
  ret : Int
  reports : List String
  state : SigState
deriving DecidableEq, Repr

/-- The state before any registration: no session registered, no signal
sources installed. -/
def sigStateClean : SigState := ⟨none, false, false, false⟩

def fuse_set_signal_handlers (st : SigState) (se : Nat) : SigResult :=
  if st.src0 then ⟨-1, ["fuse: cannot register signal source"], st⟩
  else
    let st1 : SigState := { st with src0 := true }
    if st1.src1 then ⟨-1, ["fuse: cannot register signal source"], st1⟩
    else
      let st2 : SigState := { st1 with src1 := true }
      if st2.src2 then ⟨-1, ["fuse: cannot register signal source"], st2⟩
      else
        let st3 : SigState := { st2 with src2 := true }
        ⟨0, [], { st3 with registeredSession := some se }⟩

/-- Claim C3: registering session B as the process-wide signal target
while session A is still registered returns the error code -1, emits a
report to the operator, and leaves A registered — the attempt neither
terminates the process (there is no fatal path in this function) nor
silently succeeds. -/
theorem second_signal_registration_rejected (A B : Nat) :
    (fuse_set_signal_handlers
      (fuse_set_signal_handlers sigStateClean A).state B).ret = -1 ∧
    (fuse_set_signal_handlers
      (fuse_set_signal_handlers sigStateClean A).state B).reports ≠ [] ∧
    (fuse_set_signal_handlers
      (fuse_set_signal_handlers sigStateClean A).state
        B).state.registeredSession = some A := by
  refine ⟨rfl, ?_, rfl⟩
  simp [fuse_set_signal_handlers, sigStateClean]

/-! ### Worker-pool dispatch loop (`do_work`, `__fuse_loop_mt` in
src/lib/fuse_mt.c)

Each worker runs `do_work`: an unconditional loop reading the next
command with `__fuse_read_cmd` and processing it; a `NULL` command calls
`exit(1)`, terminating the whole process.  The function body contains no
path that returns control to the caller (the `return NULL` after the loop
is unreachable).  A worker's behaviour is determined by the stream of
commands its reads produce (`none` = fatal read).  `__fuse_loop_mt`
spawns `FUSE_NUM_WORKERS - 1 = 4` detached threads running `do_work` and
then runs `do_work` on the caller's own thread, so worker index 0 is the
caller. -/

inductive MtOutcome where
  | exitedProcess (code : Nat)
  | stillLooping
deriving DecidableEq, Repr

def do_work : List (Option Nat) → MtOutcome
  | [] => .stillLooping
  | none :: _ => .exitedProcess 1
  | some _ :: rest => do_work rest

/-- Outcome of worker `i` of `__fuse_loop_mt`, where `streams i` is the
sequence of results `__fuse_read_cmd` yields on that worker's thread and
index 0 is the caller's own thread. -/
def fuse_loop_mt_worker (streams : Fin 5 → List (Option Nat)) (i : Fin 5) :
    MtOutcome :=
  do_work (streams i)

theorem do_work_fatal_read (reads : List (Option Nat)) (h : none ∈ reads) :
    do_work reads = MtOutcome.exitedProcess 1 := by
  induction reads with
  | nil => cases h
  | cons c rest ih =>
    cases c with
    | none => rfl
    | some v =>
      have hrest : none ∈ rest := by
        simpa using h
      simpa [do_work] using ih hrest

/-- Claim C6: in the worker-pool loop, any worker whose command read
fails fatally (yields no command) terminates the whole process with the
abnormal exit code 1 instead of returning an error to its caller; this
holds for every worker index, including index 0, the caller's own
thread. -/
theorem mt_worker_fatal_read_exits_process (streams : Fin 5 → List (Option Nat))
    (i : Fin 5) (h : none ∈ streams i) :
    fuse_loop_mt_worker streams i = MtOutcome.exitedProcess 1 ∧
    fuse_loop_mt_worker streams i ≠ MtOutcome.stillLooping := by
  have he := do_work_fatal_read (streams i) h
  exact ⟨he, by simp [fuse_loop_mt_worker, he]⟩

/-- Concrete run of Claim C6 on the caller's own thread (worker 0): one
successful command then a fatal read terminates the process with code 1. -/
theorem mt_worker_fatal_read_exits_process_witness :
    none ∈ [some 3, none] ∧
    (fuse_loop_mt_worker (fun _ => [some 3, none]) 0 =
      MtOutcome.exitedProcess 1 ∧
     fuse_loop_mt_worker (fun _ => [some 3, none]) 0 ≠
      MtOutcome.stillLooping) :=
  ⟨by decide,
   mt_worker_fatal_read_exits_process (fun _ => [some 3, none]) 0 (by decide)⟩

/-! ### Disk-volume references on a channel (`fuse_chan_disk`,
`fuse_chan_set_disk`, `fuse_chan_cleardisk` in src/lib/fuse_session.c,
and `fuse_unmount_common` in src/lib/helper.c)

Disk-volume references (`DADiskRef`) are modelled as natural numbers with
a Core Foundation retain count per reference (`counts : Nat → Int`,
`CFRetain` adds one, `CFRelease` subtracts one).  A channel holds an
optional current disk reference; the ghost field `everAttached` records
whether any disk reference was ever stored in the channel, so that the
spec's "ever attached" wording can be stated.  All disk-slot mutation
happens under the channel lock in the source; the lock is not modelled
since each operation is a single atomic step here. -/

def cfRetain (c : Nat → Int) (r : Nat) : Nat → Int :=
  fun x => if x = r then c x + 1 else c x

def cfRelease (c : Nat → Int) (r : Nat) : Nat → Int :=
  fun x => if x = r then c x - 1 else c x

structure DiskChan where
  fd : Int
  disk : Option Nat
  everAttached : Bool
deriving DecidableEq, Repr

/-- `fuse_chan_set_disk`: retain the new reference (if any), swap it into
the channel's disk slot, then release the old reference (if any). -/
def fuse_chan_set_disk (ch : DiskChan) (c : Nat → Int) (d : Option Nat) :
    DiskChan × (Nat → Int) :=
  let c1 := match d with
    | some r => cfRetain c r
    | none => c
  let old := ch.disk
  let ch1 : DiskChan :=
    { ch with disk := d, everAttached := ch.everAttached || d.isSome }
  let c2 := match old with
    | some r => cfRelease c1 r
    | none => c1
  (ch1, c2)

/-- `fuse_chan_disk`: return the channel's current disk reference,
retained for the caller when present. -/
def fuse_chan_disk (ch : DiskChan) (c : Nat → Int) :
    Option Nat × (Nat → Int) :=
  match ch.disk with
  | some r => (some r, cfRetain c r)
  | none => (none, c)

/-- `fuse_chan_cleardisk`: `fuse_chan_set_disk(ch, NULL)`. -/
def fuse_chan_cleardisk (ch : DiskChan) (c : Nat → Int) :
    DiskChan × (Nat → Int) :=
  fuse_chan_set_disk ch c none

/-- Observable effect of `fuse_unmount_common` on the Darwin path: which
arguments `fuse_kern_unmount` received, whether `fuse_chan_destroy` ran,
and the resulting retain counts. -/
structure UnmountTrace where
  kernDisk : Option Nat
  kernFd : Int
  destroyed : Bool
  counts : Nat → Int

set_option linter.unusedVariables false in
/-- `fuse_unmount_common` for a non-null channel on the Darwin path: the
mountpoint is ignored; the retained disk reference is fetched from the
channel, `fuse_kern_unmount(disk, fuse_chan_fd(ch))` is invoked, the
local retained reference is released when present, and otherwise the
channel is destroyed. -/
def fuse_unmount_common (mountpoint : Option String) (ch : DiskChan)
    (c : Nat → Int) : UnmountTrace :=
  let p := fuse_chan_disk ch c
  match p.1 with
  | some r => ⟨some r, ch.fd, false, cfRelease p.2 r⟩
  | none => ⟨none, ch.fd, true, p.2⟩

/-- A channel that had disk reference 0 attached and then cleared, its
retain counts starting at 1 everywhere: built by `fuse_chan_set_disk`
followed by `fuse_chan_cleardisk` on a fresh channel with descriptor 3. -/
def clearedChan : DiskChan × (Nat → Int) :=
  let p1 := fuse_chan_set_disk ⟨3, none, false⟩ (fun _ => 1) (some 0)
  fuse_chan_cleardisk p1.1 p1.2

/-- Counterexample to Claim C4 as stated: a disk-volume reference was
attached to this channel at some point (`everAttached = true`), yet
unmount destroys the channel — because what decides destruction is
whether a disk reference is attached *now*, not whether one ever was. -/
theorem unmount_destroy_not_ever_attached :
    ¬((fuse_unmount_common (some "/mnt/x") clearedChan.1
        clearedChan.2).destroyed = true ↔
      clearedChan.1.everAttached = false) := by
  decide

/-- Claim C4 as amended: on the Darwin path, for every non-null channel,
unmount ignores the mount path (the result equals the one with no path at
all), invokes the platform unmount with the channel's disk-volume
reference and the channel's descriptor, releases the locally retained
reference when one was present (so every reference's retain count is left
unchanged by the whole of unmount), and destroys the channel if and only
if no disk-volume reference is attached to it at the time of the call. -/
theorem unmount_disk_identity (mp : Option String) (ch : DiskChan)
    (c : Nat → Int) :
    (fuse_unmount_common mp ch c).kernDisk = ch.disk ∧
    (fuse_unmount_common mp ch c).kernFd = ch.fd ∧
    ((fuse_unmount_common mp ch c).destroyed = true ↔ ch.disk = none) ∧
    (∀ x, (fuse_unmount_common mp ch c).counts x = c x) ∧
    fuse_unmount_common mp ch c = fuse_unmount_common none ch c := by
  cases hd : ch.disk with
  | none =>
    refine ⟨?_, ?_, ?_, ?_, rfl⟩ <;>
      simp [fuse_unmount_common, fuse_chan_disk, hd]
  | some r =>
    refine ⟨?_, ?_, ?_, ?_, rfl⟩
    · simp [fuse_unmount_common, fuse_chan_disk, hd]
    · simp [fuse_unmount_common, fuse_chan_disk, hd]
    · simp [fuse_unmount_common, fuse_chan_disk, hd]
    · intro x
      simp [fuse_unmount_common, fuse_chan_disk, hd, cfRelease, cfRetain]
      split <;> omega

/-- Claim C7: after `set_disk(ref_a)` then `set_disk(ref_b)` on any
channel with any starting retain counts (for distinct references a and
b), `get_disk` returns a handle equal to `ref_b`, retained for the caller
(b's count goes up by one on the get), and the second `set_disk`
decremented a's retain count exactly once. -/
theorem set_disk_replaces_and_releases_old (ch : DiskChan) (c : Nat → Int)
    (a b : Nat) (hab : a ≠ b) :
    (fuse_chan_disk
      (fuse_chan_set_disk (fuse_chan_set_disk ch c (some a)).1
        (fuse_chan_set_disk ch c (some a)).2 (some b)).1
      (fuse_chan_set_disk (fuse_chan_set_disk ch c (some a)).1
        (fuse_chan_set_disk ch c (some a)).2 (some b)).2).1 = some b ∧
    (fuse_chan_disk
      (fuse_chan_set_disk (fuse_chan_set_disk ch c (some a)).1
        (fuse_chan_set_disk ch c (some a)).2 (some b)).1
      (fuse_chan_set_disk (fuse_chan_set_disk ch c (some a)).1
        (fuse_chan_set_disk ch c (some a)).2 (some b)).2).2 b =
      (fuse_chan_set_disk (fuse_chan_set_disk ch c (some a)).1
        (fuse_chan_set_disk ch c (some a)).2 (some b)).2 b + 1 ∧
    (fuse_chan_set_disk (fuse_chan_set_disk ch c (some a)).1
      (fuse_chan_set_disk ch c (some a)).2 (some b)).2 a =
      (fuse_chan_set_disk ch c (some a)).2 a - 1 := by
  have hba : ¬b = a := fun he => hab he.symm
  have hab2 : ¬a = b := hab
  refine ⟨rfl, ?_, ?_⟩
  · simp [fuse_chan_set_disk, fuse_chan_disk, cfRetain, cfRelease]
  · simp [fuse_chan_set_disk, cfRetain, cfRelease, hba, hab2]

/-- Concrete run of Claim C7 with references 0 and 1 on a fresh channel
whose retain counts start at 1 everywhere. -/
theorem set_disk_replaces_and_releases_old_witness :
    (0 : Nat) ≠ 1 ∧
    ((fuse_chan_disk
      (fuse_chan_set_disk
        (fuse_chan_set_disk ⟨3, none, false⟩ (fun _ => 1) (some 0)).1
        (fuse_chan_set_disk ⟨3, none, false⟩ (fun _ => 1) (some 0)).2
        (some 1)).1
      (fuse_chan_set_disk
        (fuse_chan_set_disk ⟨3, none, false⟩ (fun _ => 1) (some 0)).1
        (fuse_chan_set_disk ⟨3, none, false⟩ (fun _ => 1) (some 0)).2
        (some 1)).2).1 = some 1 ∧
    (fuse_chan_disk
      (fuse_chan_set_disk
        (fuse_chan_set_disk ⟨3, none, false⟩ (fun _ => 1) (some 0)).1
        (fuse_chan_set_disk ⟨3, none, false⟩ (fun _ => 1) (some 0)).2
        (some 1)).1
      (fuse_chan_set_disk
        (fuse_chan_set_disk ⟨3, none, false⟩ (fun _ => 1) (some 0)).1
        (fuse_chan_set_disk ⟨3, none, false⟩ (fun _ => 1) (some 0)).2
        (some 1)).2).2 1 =
      (fuse_chan_set_disk
        (fuse_chan_set_disk ⟨3, none, false⟩ (fun _ => 1) (some 0)).1
        (fuse_chan_set_disk ⟨3, none, false⟩ (fun _ => 1) (some 0)).2
        (some 1)).2 1 + 1 ∧
    (fuse_chan_set_disk
      (fuse_chan_set_disk ⟨3, none, false⟩ (fun _ => 1) (some 0)).1
      (fuse_chan_set_disk ⟨3, none, false⟩ (fun _ => 1) (some 0)).2
      (some 1)).2 0 =
      (fuse_chan_set_disk ⟨3, none, false⟩ (fun _ => 1) (some 0)).2 0 - 1) :=
  ⟨by decide,
   set_disk_replaces_and_releases_old ⟨3, none, false⟩ (fun _ => 1) 0 1
     (by decide)⟩

/-! ### Session/channel binding (`fuse_session_add_chan`,
`fuse_session_remove_chan` in src/lib/fuse_session.c, lines 70-86)

Only the mutual binding pointers are mutated by these two functions; the
world maps each session id to its bound channel (`se->ch`) and each
channel id to its owning session (`ch->se`).  The C asserts are modelled
by returning `none` (assertion failure) when they would fire. -/

structure BindWorld where
  seCh : Nat → Option Nat
  chSe : Nat → Option Nat

/-- `fuse_session_add_chan`: assert both the session and the channel are
unbound, then set the mutual binding. -/
def fuse_session_add_chan (w : BindWorld) (se ch : Nat) : Option BindWorld :=
  if w.seCh se = none ∧ w.chSe ch = none then
    some ⟨Function.update w.seCh se (some ch),
          Function.update w.chSe ch (some se)⟩
  else none

/-- `fuse_session_remove_chan`: if the channel has an owning session,
assert that session's bound channel is this channel and clear the mutual
binding; a channel with no session is left alone. -/
def fuse_session_remove_chan (w : BindWorld) (ch : Nat) : Option BindWorld :=
  match w.chSe ch with
  | some se =>
    if w.seCh se = some ch then
      some ⟨Function.update w.seCh se none, Function.update w.chSe ch none⟩
    else none
  | none => some w

/-- Claim C8: for a session with no bound channel and an unbound channel,
`add_chan` immediately followed by `remove_chan` succeeds (no assertion
fires) and returns the world exactly as it was before `add_chan` — the
bind/unbind pair composes to the identity. -/
theorem add_then_remove_chan_identity (w : BindWorld) (se ch : Nat)
    (h1 : w.seCh se = none) (h2 : w.chSe ch = none) :
    (fuse_session_add_chan w se ch).bind
      (fun w2 => fuse_session_remove_chan w2 ch) = some w := by
  rw [fuse_session_add_chan, if_pos ⟨h1, h2⟩, Option.some_bind,
    fuse_session_remove_chan]
  simp only [Function.update_same]
  rw [if_pos (by simp [Function.update_same])]
  have hse : Function.update (Function.update w.seCh se (some ch)) se none =
      w.seCh := by
    rw [Function.update_idem, ← h1, Function.update_eq_self]
  have hch : Function.update (Function.update w.chSe ch (some se)) ch none =
      w.chSe := by
    rw [Function.update_idem, ← h2, Function.update_eq_self]
  rw [hse, hch]

/-- Concrete run of Claim C8: in the empty world, binding session 0 to
channel 0 and immediately unbinding restores the empty world. -/
theorem add_then_remove_chan_identity_witness :
    (⟨fun _ => none, fun _ => none⟩ : BindWorld).seCh 0 = none ∧
    (⟨fun _ => none, fun _ => none⟩ : BindWorld).chSe 0 = none ∧
    (fuse_session_add_chan ⟨fun _ => none, fun _ => none⟩ 0 0).bind
      (fun w2 => fuse_session_remove_chan w2 0) =
      some ⟨fun _ => none, fun _ => none⟩ :=
  ⟨rfl, rfl,
   add_then_remove_chan_identity ⟨fun _ => none, fun _ => none⟩ 0 0 rfl rfl⟩

end MacFuse
